import Mathlib

/-!
Verification of the `RoomEnv` gridworld environment (`envs/room.py`).

The Python code is shallowly embedded: a `RoomState` carries the agent
position and the vase dictionary, modelled as an association list whose
key order mirrors Python dict insertion order.  Dictionary semantics
(lookup by first matching key, value-level equality, sorted-key hashing)
are made explicit, so the equality / hash contract of `RoomState.__eq__`
and `RoomState.__hash__` and the enumeration in
`RoomEnv.enumerate_states` can be analysed exactly.
-/

namespace Room

/-- Grid positions `(x, y)`; movement deltas may leave the grid, so
coordinates are integers. -/
abbrev Loc := Int × Int

/-- Python dict lookup `d[k]` on an association list: the value at the
first matching key, `none` when the key is absent (Python raises
`KeyError` there). -/
def dlookup : List (Loc × Bool) → Loc → Option Bool
  | [], _ => none
  | kv :: rest, k => if kv.1 = k then some kv.2 else dlookup rest k

/-- Python `k in d`: key membership. -/
def dmem (l : List (Loc × Bool)) (k : Loc) : Bool :=
  (dlookup l k).isSome

/-- Python `d[k] = v` for a key already present: replace the stored value,
keeping the dict's key order. -/
def dupdate (l : List (Loc × Bool)) (k : Loc) (v : Bool) : List (Loc × Bool) :=
  l.map (fun kv => if kv.1 = k then (kv.1, v) else kv)

/-- Python `d.keys()` in insertion order. -/
def dkeys (l : List (Loc × Bool)) : List Loc :=
  l.map Prod.fst

/-- Python dict equality `d1 == d2`: the same keys carry the same values,
irrespective of insertion order. -/
def dictBeq (a b : List (Loc × Bool)) : Bool :=
  a.all (fun kv => dlookup a kv.1 == dlookup b kv.1) &&
  b.all (fun kv => dlookup a kv.1 == dlookup b kv.1)

/-- State type `RoomState`: agent position plus the vase dictionary
(location ↦ intact flag), as in `room.py` lines 10-34. -/
structure RoomState where
  agent_pos : Loc
  vase_states : List (Loc × Bool)
deriving DecidableEq, Repr

/-- Python `RoomState.__eq__`: equal agent positions and equal vase dicts. -/
def stateEq (s t : RoomState) : Bool :=
  s.agent_pos == t.agent_pos && dictBeq s.vase_states t.vase_states

/-- Lexicographic order on positions, the order Python's `sorted` uses on
`(x, y)` tuples. -/
def locLe (a b : Loc) : Prop :=
  a.1 < b.1 ∨ (a.1 = b.1 ∧ a.2 ≤ b.2)

instance : DecidableRel locLe := fun a b => by
  unfold locLe; infer_instance

instance : IsTotal Loc locLe where
  total a b := by
    rcases lt_trichotomy a.1 b.1 with h | h | h
    · exact Or.inl (Or.inl h)
    · rcases le_total a.2 b.2 with h2 | h2
      · exact Or.inl (Or.inr ⟨h, h2⟩)
      · exact Or.inr (Or.inr ⟨h.symm, h2⟩)
    · exact Or.inr (Or.inl h)

instance : IsTrans Loc locLe where
  trans a b c hab hbc := by
    rcases hab with h1 | ⟨h1, h1b⟩ <;> rcases hbc with h2 | ⟨h2, h2b⟩
    · exact Or.inl (h1.trans h2)
    · exact Or.inl (h2 ▸ h1)
    · exact Or.inl (h1 ▸ h2)
    · exact Or.inr ⟨h1.trans h2, h1b.trans h2b⟩

instance : IsAntisymm Loc locLe where
  antisymm a b hab hba := by
    rcases hab with h1 | ⟨h1, h1b⟩ <;> rcases hba with h2 | ⟨h2, h2b⟩
    · exact absurd h2 (not_lt.mpr h1.le)
    · exact absurd h1 (not_lt.mpr h2.le)
    · exact absurd h2 (not_lt.mpr h1.le)
    · exact Prod.ext h1 (le_antisymm h1b h2b)

/-- Python `sorted` on a list of positions. -/
def sortLocs (l : List Loc) : List Loc :=
  l.insertionSort locLe

/-- The data hashed by `RoomState.__hash__`: the agent position together
with the vase flags read off in sorted key order
(`tuple([d[loc] for loc in sorted(d.keys())])`).  Equal tuples hash
equally in Python, so the hash contract is stated on this tuple. -/
def hashKey (s : RoomState) : Loc × List (Option Bool) :=
  (s.agent_pos, (sortLocs (dkeys s.vase_states)).map (fun k => dlookup s.vase_states k))

/-- The static environment data of `RoomEnv.__init__`: grid size, vase
locations (the keys of the initial state's vase dict, in order), carpet
and feature locations. -/
structure RoomEnv where
  width : Nat
  height : Nat
  vase_locations : List Loc
  carpet_locations : List Loc
  feature_locations : List Loc
deriving Repr

/-- Python `self.num_vases = len(self.vase_locations)`. -/
def num_vases (env : RoomEnv) : Nat :=
  env.vase_locations.length

/-- Bounds test `0 <= x < width and 0 <= y < height`. -/
def inBoundsP (env : RoomEnv) (p : Loc) : Prop :=
  0 ≤ p.1 ∧ p.1 < (env.width : Int) ∧ 0 ≤ p.2 ∧ p.2 < (env.height : Int)

instance (env : RoomEnv) (p : Loc) : Decidable (inBoundsP env p) := by
  unfold inBoundsP; infer_instance

/-- Python `itertools.product([True, False], repeat=n)`: all boolean tuples of
length `n`, leftmost coordinate varying slowest, `True` first. -/
def allBools : Nat → List (List Bool)
  | 0 => [[]]
  | n + 1 => (allBools n).map (fun bs => true :: bs) ++ (allBools n).map (fun bs => false :: bs)

/-- The agent positions visited by `enumerate_states` in loop order
(`for y in range(height): for x in range(width): pos = (x, y)`). -/
def gridPositions (env : RoomEnv) : List Loc :=
  (List.range env.height).flatMap
    (fun y => (List.range env.width).map (fun (x : Nat) => ((x : Int), (y : Int))))

/-- Python `dict(zip(self.vase_locations, vase_intact_bools))`. -/
def mkLayout (env : RoomEnv) (bs : List Bool) : List (Loc × Bool) :=
  env.vase_locations.zip bs

/-- The states generated by the nested loops of `enumerate_states`, in
generation order, before the `if state not in state_num` dedup check:
for each product tuple the in-grid positions that do not sit on an
intact vase. -/
def enumRaw (env : RoomEnv) : List RoomState :=
  (allBools (num_vases env)).flatMap (fun bs =>
    ((gridPositions env).filter
        (fun p => !(dlookup (mkLayout env bs) p == some true))).map
      (fun p => RoomState.mk p (mkLayout env bs)))

/-- One step of the dict insertion `state_num[state] = len(state_num)`
guarded by `if state not in state_num`: keep the list unless an equal
(by `__eq__`) state is already present. -/
def addState (acc : List RoomState) (s : RoomState) : List RoomState :=
  if acc.any (fun t => stateEq t s) then acc else acc ++ [s]

/-- Source `RoomEnv.enumerate_states`: the keys of `state_num` in insertion
order, so the state assigned index `i` sits at position `i`. -/
def enumerate_states (env : RoomEnv) : List RoomState :=
  (enumRaw env).foldl addState []

/-- Python `self.nS = len(state_num)`. -/
def nS (env : RoomEnv) : Nat :=
  (enumerate_states env).length

/-- Index of the first state equal (by `__eq__`) to `s`. -/
def findIdxAux (s : RoomState) : List RoomState → Option Nat
  | [] => none
  | t :: rest => if stateEq t s then some 0 else (findIdxAux s rest).map (· + 1)

/-- Source `RoomEnv.get_num_from_state`: dict lookup `self.state_num[state]`;
`none` models the `KeyError` raised on a missing state. -/
def get_num_from_state (env : RoomEnv) (s : RoomState) : Option Nat :=
  findIdxAux s (enumerate_states env)

/-- Source `RoomEnv.get_state_from_num`: dict lookup `self.num_state[num]`;
`none` models the `KeyError` raised on an unassigned index. -/
def get_state_from_num (env : RoomEnv) (i : Nat) : Option RoomState :=
  (enumerate_states env).get? i

/-- Python `list(s.vase_states.values()).count(False)`. -/
def num_broken_vases (s : RoomState) : Nat :=
  ((s.vase_states.map Prod.snd).filter (fun b => b == false)).length

/-- Source `RoomEnv.s_to_f`: `[num_broken_vases, carpet_feature] + features`. -/
def s_to_f (env : RoomEnv) (s : RoomState) : List Int :=
  ((num_broken_vases s : Int) ::
    (if env.carpet_locations.contains s.agent_pos then (1 : Int) else 0) :: []) ++
  env.feature_locations.map (fun fpos => if s.agent_pos = fpos then (1 : Int) else 0)

/-- Modelled from the spec: the external `Direction` utility
(`envs/utils.py`, not under `src/`) resolves an action number in
`{NORTH, SOUTH, EAST, WEST, STAY}` to a movement delta added to the
position; `y = 0` is the top row of the grid, so NORTH decreases `y`
and SOUTH increases it, EAST increases `x`, WEST decreases it, and
STAY is the zero delta.  Actions are numbered NORTH `0`, SOUTH `1`,
EAST `2`, WEST `3`, STAY `4`. -/
def move_in_direction_number (pos : Loc) (a : Nat) : Loc :=
  match a with
  | 0 => (pos.1, pos.2 - 1)
  | 1 => (pos.1, pos.2 + 1)
  | 2 => (pos.1 + 1, pos.2)
  | 3 => (pos.1 - 1, pos.2)
  | _ => pos

/-- Source `RoomEnv.get_next_state`: move, clamp at the boundary, deep-copy the
vase dict, break the vase at the destination when there is one. -/
def get_next_state (env : RoomEnv) (s : RoomState) (a : Nat) : RoomState :=
  let cand := move_in_direction_number s.agent_pos a
  let new_agent_pos := if inBoundsP env cand then cand else s.agent_pos
  let new_vase_states := s.vase_states                     -- deepcopy
  let new_vase_states :=
    if dmem new_vase_states new_agent_pos then
      dupdate new_vase_states new_agent_pos false          -- break the vase
    else new_vase_states
  RoomState.mk new_agent_pos new_vase_states

/-- A store of dict objects: `get_next_state` is re-expressed below with
explicit references so that the `deepcopy` on line 123 of `room.py`
(allocation of a fresh dict) and the mutation on line 125 (write to the
copy only) are visible, and the frame property over the input state can
be stated. -/
abbrev Heap := List (List (Loc × Bool))

/-- A state whose vase dict lives in the heap. -/
structure RefState where
  agent_pos : Loc
  vase_ref : Nat
deriving DecidableEq, Repr

/-- The value a heap-based state denotes. -/
def deref (h : Heap) (s : RefState) : RoomState :=
  RoomState.mk s.agent_pos (h.getD s.vase_ref [])

/-- Source `RoomEnv.get_next_state` with the dict store explicit: `deepcopy`
appends a fresh copy of the input's vase dict to the heap, and the
vase-breaking write `new_vase_states[new_agent_pos] = False` mutates
only that fresh cell. -/
def get_next_state_heap (env : RoomEnv) (h : Heap) (s : RefState) (a : Nat) :
    Heap × RefState :=
  let cand := move_in_direction_number s.agent_pos a
  let new_agent_pos := if inBoundsP env cand then cand else s.agent_pos
  let layout := h.getD s.vase_ref []
  let newref := h.length
  let h2 := h ++ [layout]                                  -- deepcopy
  let h3 :=
    if dmem layout new_agent_pos then
      h2.set newref (dupdate layout new_agent_pos false)   -- break the vase
    else h2
  (h3, RefState.mk new_agent_pos newref)

/-- Restated from the spec for the enumeration refinement: a
`(vase-layout, agent-position)` pair is valid when the layout assigns
one flag per vase location, the position lies on the grid, and the
agent does not sit on a location whose flag is intact. -/
def specValidPair (env : RoomEnv) (bs : List Bool) (p : Loc) : Prop :=
  bs.length = num_vases env ∧ inBoundsP env p ∧
    ∀ kv ∈ env.vase_locations.zip bs, ¬(kv.1 = p ∧ kv.2 = true)

instance (env : RoomEnv) (bs : List Bool) (p : Loc) :
    Decidable (specValidPair env bs p) := by
  unfold specValidPair; infer_instance

/-- Restated from the spec: the brute-force count of valid
`(vase-layout, agent-position)` pairs. -/
def specCountValidPairs (env : RoomEnv) : Nat :=
  ((allBools (num_vases env)).flatMap
      (fun bs => (gridPositions env).map (fun p => (bs, p)))).countP
    (fun bp => decide (specValidPair env bp.1 bp.2))

/-! ### Dictionary lemmas -/

theorem dlookup_eq_none (l : List (Loc × Bool)) (k : Loc) (h : k ∉ dkeys l) :
    dlookup l k = none := by
  induction l with
  | nil => rfl
  | cons kv rest ih =>
    have hcons : dkeys (kv :: rest) = kv.1 :: dkeys rest := rfl
    rw [hcons, List.mem_cons, not_or] at h
    rw [dlookup, if_neg (fun hk => h.1 hk.symm)]
    exact ih h.2

theorem mem_of_dlookup_isSome (l : List (Loc × Bool)) (k : Loc)
    (h : (dlookup l k).isSome) : k ∈ dkeys l := by
  by_contra hk
  rw [dlookup_eq_none l k hk] at h
  simp at h

theorem dlookup_isSome_of_mem (l : List (Loc × Bool)) (k : Loc)
    (h : k ∈ dkeys l) : (dlookup l k).isSome := by
  induction l with
  | nil => simp [dkeys] at h
  | cons kv rest ih =>
    simp only [dkeys, List.map_cons, List.mem_cons] at h
    by_cases hk : kv.1 = k
    · simp [dlookup, hk]
    · rcases h with h | h
      · exact absurd h.symm hk
      · simpa [dlookup, hk] using ih (by simpa [dkeys] using h)

theorem dictBeq_iff (a b : List (Loc × Bool)) :
    dictBeq a b = true ↔ ∀ k, dlookup a k = dlookup b k := by
  constructor
  · intro h k
    simp only [dictBeq, Bool.and_eq_true, List.all_eq_true, beq_iff_eq] at h
    by_cases hka : k ∈ dkeys a
    · obtain ⟨kv, hmem, hk⟩ := List.mem_map.mp (show k ∈ a.map Prod.fst from hka)
      rw [← hk]
      exact h.1 kv hmem
    · by_cases hkb : k ∈ dkeys b
      · obtain ⟨kv, hmem, hk⟩ := List.mem_map.mp (show k ∈ b.map Prod.fst from hkb)
        rw [← hk]
        exact h.2 kv hmem
      · rw [dlookup_eq_none a k hka, dlookup_eq_none b k hkb]
  · intro h
    simp only [dictBeq, Bool.and_eq_true, List.all_eq_true, beq_iff_eq]
    exact ⟨fun kv _ => h kv.1, fun kv _ => h kv.1⟩

theorem stateEq_iff (s t : RoomState) :
    stateEq s t = true ↔
      s.agent_pos = t.agent_pos ∧
        ∀ k, dlookup s.vase_states k = dlookup t.vase_states k := by
  simp only [stateEq, Bool.and_eq_true, beq_iff_eq, dictBeq_iff]

theorem stateEq_refl (s : RoomState) : stateEq s s = true := by
  rw [stateEq_iff]; exact ⟨rfl, fun _ => rfl⟩

theorem stateEq_symm (s t : RoomState) (h : stateEq s t = true) :
    stateEq t s = true := by
  rw [stateEq_iff] at h ⊢
  exact ⟨h.1.symm, fun k => (h.2 k).symm⟩

theorem stateEq_trans (s t u : RoomState) (h1 : stateEq s t = true)
    (h2 : stateEq t u = true) : stateEq s u = true := by
  rw [stateEq_iff] at h1 h2 ⊢
  exact ⟨h1.1.trans h2.1, fun k => (h1.2 k).trans (h2.2 k)⟩

theorem dkeys_dupdate (l : List (Loc × Bool)) (k : Loc) (v : Bool) :
    dkeys (dupdate l k v) = dkeys l := by
  induction l with
  | nil => rfl
  | cons kv rest ih =>
    simp only [dupdate, dkeys, List.map_cons] at *
    by_cases hk : kv.1 = k
    · simpa [hk] using ih
    · simpa [hk] using ih

theorem dlookup_dupdate_self (l : List (Loc × Bool)) (k : Loc) (v : Bool)
    (h : dmem l k = true) : dlookup (dupdate l k v) k = some v := by
  induction l with
  | nil => simp [dmem, dlookup] at h
  | cons kv rest ih =>
    by_cases hk : kv.1 = k
    · simp [dupdate, dlookup, hk]
    · have hm : dmem rest k = true := by
        simpa [dmem, dlookup, hk] using h
      simpa [dupdate, dlookup, hk] using ih hm

theorem dlookup_dupdate_ne (l : List (Loc × Bool)) (k q : Loc) (v : Bool)
    (h : q ≠ k) : dlookup (dupdate l k v) q = dlookup l q := by
  induction l with
  | nil => rfl
  | cons kv rest ih =>
    have hstep : dupdate (kv :: rest) k v =
        (if kv.1 = k then (kv.1, v) else kv) :: dupdate rest k v := rfl
    rw [hstep]
    by_cases hk : kv.1 = k
    · have hne : ¬ kv.1 = q := fun hq => h (hq.symm.trans hk)
      rw [if_pos hk, dlookup, dlookup, if_neg hne, if_neg hne, ih]
    · rw [if_neg hk, dlookup, dlookup]
      by_cases hq : kv.1 = q
      · rw [if_pos hq, if_pos hq]
      · rw [if_neg hq, if_neg hq, ih]

/-! ### Heap read lemmas -/

theorem getD_set_len (h : Heap) (L v : List (Loc × Bool)) :
    ((h ++ [L]).set h.length v).getD h.length [] = v := by
  rw [List.getD_eq_getElem?_getD, List.getElem?_set_self (by simp)]
  rfl

theorem getD_concat_len (h : Heap) (L : List (Loc × Bool)) :
    (h ++ [L]).getD h.length [] = L := by
  rw [List.getD_eq_getElem?_getD, List.getElem?_concat_length]
  rfl

theorem getD_set_append_lt (h : Heap) (L v : List (Loc × Bool)) (i : Nat)
    (hi : i < h.length) :
    ((h ++ [L]).set h.length v).getD i [] = h.getD i [] := by
  rw [List.getD_eq_getElem?_getD,
    List.getElem?_set_ne (fun he => absurd (he ▸ hi) (lt_irrefl _)),
    List.getElem?_append_left hi, ← List.getD_eq_getElem?_getD]

theorem getD_append_lt (h : Heap) (L : List (Loc × Bool)) (i : Nat)
    (hi : i < h.length) :
    (h ++ [L]).getD i [] = h.getD i [] := by
  rw [List.getD_eq_getElem?_getD, List.getElem?_append_left hi,
    ← List.getD_eq_getElem?_getD]

/-! ### Transition-function shape lemmas -/

theorem get_next_state_agent_pos (env : RoomEnv) (s : RoomState) (a : Nat) :
    (get_next_state env s a).agent_pos =
      if inBoundsP env (move_in_direction_number s.agent_pos a) then
        move_in_direction_number s.agent_pos a
      else s.agent_pos := rfl

theorem get_next_state_vase_states (env : RoomEnv) (s : RoomState) (a : Nat) :
    (get_next_state env s a).vase_states =
      if dmem s.vase_states (get_next_state env s a).agent_pos then
        dupdate s.vase_states (get_next_state env s a).agent_pos false
      else s.vase_states := rfl

theorem heap_snd_agent (env : RoomEnv) (h : Heap) (s : RefState) (a : Nat) :
    (get_next_state_heap env h s a).2.agent_pos =
      if inBoundsP env (move_in_direction_number s.agent_pos a) then
        move_in_direction_number s.agent_pos a
      else s.agent_pos := rfl

theorem heap_snd_ref (env : RoomEnv) (h : Heap) (s : RefState) (a : Nat) :
    (get_next_state_heap env h s a).2.vase_ref = h.length := rfl

theorem heap_fst (env : RoomEnv) (h : Heap) (s : RefState) (a : Nat) :
    (get_next_state_heap env h s a).1 =
      if dmem (h.getD s.vase_ref []) (get_next_state_heap env h s a).2.agent_pos then
        (h ++ [h.getD s.vase_ref []]).set h.length
          (dupdate (h.getD s.vase_ref [])
            (get_next_state_heap env h s a).2.agent_pos false)
      else h ++ [h.getD s.vase_ref []] := rfl

/-! ### Claim theorems: transition function -/

/-- C5: boundary clamp — for every state with in-bounds agent position
and every action whose movement delta leaves the grid, `get_next_state`
keeps the agent at its current position (no wrap, no error). -/
theorem boundary_clamp (env : RoomEnv) (s : RoomState) (a : Nat)
    (hin : inBoundsP env s.agent_pos)
    (hout : ¬ inBoundsP env (move_in_direction_number s.agent_pos a)) :
    (get_next_state env s a).agent_pos = s.agent_pos := by
  rw [get_next_state_agent_pos, if_neg hout]

/-- C5 witness: in a 2×2 grid with no vases, action WEST (number 3)
from the corner `(0, 0)` leaves the agent at `(0, 0)`. -/
theorem boundary_clamp_witness :
    (get_next_state (RoomEnv.mk 2 2 [] [] [])
        (RoomState.mk ((0 : Int), (0 : Int)) []) 3).agent_pos =
      ((0 : Int), (0 : Int)) :=
  boundary_clamp (RoomEnv.mk 2 2 [] [] [])
    (RoomState.mk ((0 : Int), (0 : Int)) []) 3 (by decide) (by decide)

/-- C4: vase breaking — for every state and action, whenever the
(possibly clamped) destination is a vase location, the successor's
flag there is `False` regardless of its previous value, and the flag
at every other location is unchanged. -/
theorem vase_breaking (env : RoomEnv) (s : RoomState) (a : Nat) :
    (dmem s.vase_states (get_next_state env s a).agent_pos = true →
      dlookup (get_next_state env s a).vase_states
        (get_next_state env s a).agent_pos = some false)
    ∧ ∀ q, q ≠ (get_next_state env s a).agent_pos →
        dlookup (get_next_state env s a).vase_states q =
          dlookup s.vase_states q := by
  constructor
  · intro hm
    rw [get_next_state_vase_states, if_pos hm]
    exact dlookup_dupdate_self _ _ _ hm
  · intro q hq
    rw [get_next_state_vase_states]
    by_cases hm : dmem s.vase_states (get_next_state env s a).agent_pos
    · rw [if_pos hm]
      exact dlookup_dupdate_ne _ _ _ _ hq
    · rw [if_neg hm]

/-- C4 witness: stepping EAST (number 2) from `(0, 0)` onto the intact
vase at `(1, 0)` in a 2×1 grid moves the agent there and breaks the
vase. -/
theorem vase_breaking_witness :
    dlookup (get_next_state (RoomEnv.mk 2 1 [((1 : Int), (0 : Int))] [] [])
        (RoomState.mk ((0 : Int), (0 : Int)) [(((1 : Int), (0 : Int)), true)]) 2).vase_states
        ((1 : Int), (0 : Int)) = some false := by
  have h := (vase_breaking (RoomEnv.mk 2 1 [((1 : Int), (0 : Int))] [] [])
    (RoomState.mk ((0 : Int), (0 : Int)) [(((1 : Int), (0 : Int)), true)]) 2).1 (by decide)
  exact h

/-- C10: the successor returned by `get_next_state` never has the agent
on a location whose vase flag is intact, for every input state —
including inputs that violate the invariant themselves. -/
theorem next_state_valid (env : RoomEnv) (s : RoomState) (a : Nat) :
    dlookup (get_next_state env s a).vase_states
      (get_next_state env s a).agent_pos ≠ some true := by
  by_cases hm : dmem s.vase_states (get_next_state env s a).agent_pos
  · rw [get_next_state_vase_states, if_pos hm, dlookup_dupdate_self _ _ _ hm]
    simp
  · rw [get_next_state_vase_states, if_neg hm]
    unfold dmem at hm
    intro hc
    rw [hc] at hm
    simp at hm

/-- C10 witness: staying in place (action 4) on the 2×1 grid with a
vase at `(1, 0)` yields a successor not standing on an intact vase. -/
theorem next_state_valid_witness :
    dlookup (get_next_state (RoomEnv.mk 2 1 [((1 : Int), (0 : Int))] [] [])
        (RoomState.mk ((0 : Int), (0 : Int)) [(((1 : Int), (0 : Int)), true)]) 4).vase_states
      (get_next_state (RoomEnv.mk 2 1 [((1 : Int), (0 : Int))] [] [])
        (RoomState.mk ((0 : Int), (0 : Int)) [(((1 : Int), (0 : Int)), true)]) 4).agent_pos
      ≠ some true :=
  next_state_valid (RoomEnv.mk 2 1 [((1 : Int), (0 : Int))] [] [])
    (RoomState.mk ((0 : Int), (0 : Int)) [(((1 : Int), (0 : Int)), true)]) 4

/-- C9: frame property — with the dict store explicit, `get_next_state`
writes only the fresh copy allocated by `deepcopy`: the input state's
agent position and entire vase dict read back unchanged after the
call, and the produced state denotes exactly the pure successor. -/
theorem next_state_frame (env : RoomEnv) (h : Heap) (s : RefState) (a : Nat)
    (hr : s.vase_ref < h.length) :
    deref (get_next_state_heap env h s a).1 s = deref h s ∧
      deref (get_next_state_heap env h s a).1 (get_next_state_heap env h s a).2 =
        get_next_state env (deref h s) a := by
  constructor
  · show RoomState.mk s.agent_pos ((get_next_state_heap env h s a).1.getD s.vase_ref []) =
      RoomState.mk s.agent_pos (h.getD s.vase_ref [])
    rw [heap_fst]
    by_cases hm : dmem (h.getD s.vase_ref [])
        (get_next_state_heap env h s a).2.agent_pos
    · rw [if_pos hm, getD_set_append_lt _ _ _ _ hr]
    · rw [if_neg hm, getD_append_lt _ _ _ hr]
  · show RoomState.mk (get_next_state_heap env h s a).2.agent_pos
        ((get_next_state_heap env h s a).1.getD
          (get_next_state_heap env h s a).2.vase_ref []) =
      get_next_state env (deref h s) a
    have hagent : (get_next_state env (deref h s) a).agent_pos =
        (get_next_state_heap env h s a).2.agent_pos := by
      rw [get_next_state_agent_pos, heap_snd_agent]
      rfl
    have hvals : (get_next_state env (deref h s) a).vase_states =
        (get_next_state_heap env h s a).1.getD
          (get_next_state_heap env h s a).2.vase_ref [] := by
      rw [get_next_state_vase_states, heap_fst, heap_snd_ref]
      have hd : (deref h s).vase_states = h.getD s.vase_ref [] := rfl
      rw [hd, hagent]
      by_cases hm : dmem (h.getD s.vase_ref [])
          (get_next_state_heap env h s a).2.agent_pos
      · rw [if_pos hm, if_pos hm, getD_set_len]
      · rw [if_neg hm, if_neg hm, getD_concat_len]
    calc RoomState.mk (get_next_state_heap env h s a).2.agent_pos
          ((get_next_state_heap env h s a).1.getD
            (get_next_state_heap env h s a).2.vase_ref []) =
        RoomState.mk (get_next_state env (deref h s) a).agent_pos
          (get_next_state env (deref h s) a).vase_states := by
          rw [hagent, hvals]
      _ = get_next_state env (deref h s) a := rfl

/-- C9 witness: a one-cell heap, agent at `(0, 0)` stepping EAST onto
the vase at `(1, 0)` in a 2×1 grid: the stored input dict is untouched
and the result dereferences to the pure successor. -/
theorem next_state_frame_witness :
    deref (get_next_state_heap (RoomEnv.mk 2 1 [((1 : Int), (0 : Int))] [] [])
        [[(((1 : Int), (0 : Int)), true)]] (RefState.mk ((0 : Int), (0 : Int)) 0) 2).1
        (RefState.mk ((0 : Int), (0 : Int)) 0) =
      deref [[(((1 : Int), (0 : Int)), true)]] (RefState.mk ((0 : Int), (0 : Int)) 0) :=
  (next_state_frame (RoomEnv.mk 2 1 [((1 : Int), (0 : Int))] [] [])
    [[(((1 : Int), (0 : Int)), true)]] (RefState.mk ((0 : Int), (0 : Int)) 0) 2
    (by decide)).1

/-! ### Claim theorem: equality and hash contract -/

/-- C7: `RoomState.__eq__` holds exactly when the agent positions agree
and the vase dicts agree as mappings, and `RoomState.__hash__` reads
the vase flags in sorted key order, so any two equal states — whatever
the insertion order of their dicts — hash identically. -/
theorem eq_hash_contract (s t : RoomState)
    (hs : (dkeys s.vase_states).Nodup) (ht : (dkeys t.vase_states).Nodup) :
    (stateEq s t = true ↔
      (s.agent_pos = t.agent_pos ∧
        ∀ k, dlookup s.vase_states k = dlookup t.vase_states k)) ∧
    (stateEq s t = true → hashKey s = hashKey t) := by
  refine ⟨stateEq_iff s t, fun he => ?_⟩
  obtain ⟨hpos, hlook⟩ := (stateEq_iff s t).mp he
  have hmem : ∀ k, k ∈ dkeys s.vase_states ↔ k ∈ dkeys t.vase_states := by
    intro k
    constructor
    · intro hk
      exact mem_of_dlookup_isSome _ _ (by rw [← hlook k]; exact dlookup_isSome_of_mem _ _ hk)
    · intro hk
      exact mem_of_dlookup_isSome _ _ (by rw [hlook k]; exact dlookup_isSome_of_mem _ _ hk)
  have hperm : List.Perm (sortLocs (dkeys s.vase_states)) (sortLocs (dkeys t.vase_states)) :=
    (List.perm_insertionSort locLe (dkeys s.vase_states)).trans
      (((List.perm_ext_iff_of_nodup hs ht).mpr hmem).trans
        (List.perm_insertionSort locLe (dkeys t.vase_states)).symm)
  have hsorted : sortLocs (dkeys s.vase_states) = sortLocs (dkeys t.vase_states) :=
    List.eq_of_perm_of_sorted hperm
      (List.sorted_insertionSort locLe (dkeys s.vase_states))
      (List.sorted_insertionSort locLe (dkeys t.vase_states))
  unfold hashKey
  rw [hpos, hsorted]
  exact congrArg (Prod.mk t.agent_pos) (List.map_congr_left (fun k _ => hlook k))

/-- C7 witness: two states with the same mapping stored in different
insertion orders are `__eq__`-equal and produce the same hash tuple. -/
theorem eq_hash_contract_witness :
    stateEq
        (RoomState.mk ((0 : Int), (1 : Int))
          [(((1 : Int), (0 : Int)), true), (((0 : Int), (0 : Int)), false)])
        (RoomState.mk ((0 : Int), (1 : Int))
          [(((0 : Int), (0 : Int)), false), (((1 : Int), (0 : Int)), true)]) = true ∧
    hashKey (RoomState.mk ((0 : Int), (1 : Int))
        [(((1 : Int), (0 : Int)), true), (((0 : Int), (0 : Int)), false)]) =
      hashKey (RoomState.mk ((0 : Int), (1 : Int))
        [(((0 : Int), (0 : Int)), false), (((1 : Int), (0 : Int)), true)]) :=
  ⟨by decide,
    (eq_hash_contract
      (RoomState.mk ((0 : Int), (1 : Int))
        [(((1 : Int), (0 : Int)), true), (((0 : Int), (0 : Int)), false)])
      (RoomState.mk ((0 : Int), (1 : Int))
        [(((0 : Int), (0 : Int)), false), (((1 : Int), (0 : Int)), true)])
      (by decide) (by decide)).2 (by decide)⟩

/-! ### Claim theorem: feature extraction -/

/-- C6: `s_to_f` returns a vector of length `2 + |feature_locations|`
whose components, in order, are the broken-vase count (bounded by
`num_vases`), the 0/1 carpet indicator, and one 0/1 indicator per
feature location in list order. -/
theorem s_to_f_spec (env : RoomEnv) (s : RoomState)
    (hkeys : dkeys s.vase_states = env.vase_locations) :
    (s_to_f env s).length = 2 + env.feature_locations.length ∧
    (s_to_f env s).get? 0 = some ((num_broken_vases s : Int)) ∧
    num_broken_vases s ≤ num_vases env ∧
    (s_to_f env s).get? 1 =
      some (if env.carpet_locations.contains s.agent_pos then (1 : Int) else 0) ∧
    ∀ i, i < env.feature_locations.length →
      (s_to_f env s).get? (2 + i) =
        (env.feature_locations.get? i).map
          (fun fpos => if s.agent_pos = fpos then (1 : Int) else 0) := by
  refine ⟨?_, rfl, ?_, rfl, ?_⟩
  · simp [s_to_f]
    omega
  · have h1 : num_broken_vases s ≤ (s.vase_states.map Prod.snd).length :=
      List.length_filter_le _ _
    have h2 : (s.vase_states.map Prod.snd).length = (dkeys s.vase_states).length := by
      simp [dkeys]
    rw [h2, hkeys] at h1
    exact h1
  · intro i hi
    show ((num_broken_vases s : Int) ::
        (if env.carpet_locations.contains s.agent_pos then (1 : Int) else 0) ::
        env.feature_locations.map
          (fun fpos => if s.agent_pos = fpos then (1 : Int) else 0)).get? (2 + i) = _
    have harith : 2 + i = i + 1 + 1 := by omega
    rw [harith]
    show (env.feature_locations.map
        (fun fpos => if s.agent_pos = fpos then (1 : Int) else 0)).get? i = _
    exact List.get?_map _ _ _

/-- C6 witness: a 2×2 grid with one broken vase at `(1, 1)`, a carpet at
`(0, 1)` and two feature locations; the agent stands on the carpet. -/
theorem s_to_f_spec_witness :
    (s_to_f (RoomEnv.mk 2 2 [((1 : Int), (1 : Int))] [((0 : Int), (1 : Int))]
          [((1 : Int), (0 : Int)), ((0 : Int), (0 : Int))])
        (RoomState.mk ((0 : Int), (1 : Int)) [(((1 : Int), (1 : Int)), false)])).length =
      2 + 2 ∧
    num_broken_vases
        (RoomState.mk ((0 : Int), (1 : Int)) [(((1 : Int), (1 : Int)), false)]) ≤
      num_vases (RoomEnv.mk 2 2 [((1 : Int), (1 : Int))] [((0 : Int), (1 : Int))]
          [((1 : Int), (0 : Int)), ((0 : Int), (0 : Int))]) := by
  have h := s_to_f_spec
    (RoomEnv.mk 2 2 [((1 : Int), (1 : Int))] [((0 : Int), (1 : Int))]
      [((1 : Int), (0 : Int)), ((0 : Int), (0 : Int))])
    (RoomState.mk ((0 : Int), (1 : Int)) [(((1 : Int), (1 : Int)), false)])
    (by decide)
  exact ⟨h.1, h.2.2.1⟩

/-! ### Claim theorem: loud lookup failure -/

theorem findIdxAux_none (s : RoomState) (l : List RoomState)
    (h : ∀ t ∈ l, stateEq t s = false) : findIdxAux s l = none := by
  induction l with
  | nil => rfl
  | cons t rest ih =>
    have ht : stateEq t s = false := h t (List.mem_cons_self t rest)
    rw [findIdxAux, if_neg (by rw [ht]; exact Bool.false_ne_true),
      ih (fun u hu => h u (List.mem_cons_of_mem t hu))]
    rfl

/-- C8: failed lookups are loud — `get_num_from_state` yields no index
for a state equal to none of the enumerated states (Python raises
`KeyError`), and `get_state_from_num` yields no state for an index
outside `[0, num_states)`; neither returns a default entry. -/
theorem lookup_failure (env : RoomEnv) :
    (∀ s, (∀ t ∈ enumerate_states env, stateEq t s = false) →
      get_num_from_state env s = none) ∧
    ∀ i, nS env ≤ i → get_state_from_num env i = none := by
  constructor
  · intro s h
    exact findIdxAux_none s (enumerate_states env) h
  · intro i hi
    exact List.get?_eq_none.mpr hi

/-- C8 witness: in a 1×1 grid without vases, the off-grid state at
`(5, 5)` has no index, and index `1` (one past `nS = 1`) has no state. -/
theorem lookup_failure_witness :
    get_num_from_state (RoomEnv.mk 1 1 [] [] [])
        (RoomState.mk ((5 : Int), (5 : Int)) []) = none ∧
    get_state_from_num (RoomEnv.mk 1 1 [] [] []) 1 = none :=
  ⟨(lookup_failure (RoomEnv.mk 1 1 [] [] [])).1
      (RoomState.mk ((5 : Int), (5 : Int)) []) (by decide),
    (lookup_failure (RoomEnv.mk 1 1 [] [] [])).2 1 (by decide)⟩

/-! ### Enumeration helper lemmas -/

theorem mem_allBools (n : Nat) : ∀ bs : List Bool, bs ∈ allBools n ↔ bs.length = n := by
  induction n with
  | zero => intro bs; cases bs <;> simp [allBools]
  | succ n ih =>
    intro bs
    cases bs with
    | nil =>
      simp only [allBools, List.mem_append, List.mem_map, List.length_nil]
      constructor
      · rintro (⟨a, _, he⟩ | ⟨a, _, he⟩) <;> exact absurd he (by simp)
      · intro h; omega
    | cons b rest =>
      simp only [allBools, List.mem_append, List.mem_map, List.length_cons]
      constructor
      · rintro (⟨a, ha, he⟩ | ⟨a, ha, he⟩) <;>
          (injection he with h1 h2; subst h2; rw [(ih a).mp ha])
      · intro h
        have hr : rest.length = n := by omega
        cases b
        · exact Or.inr ⟨rest, (ih rest).mpr hr, rfl⟩
        · exact Or.inl ⟨rest, (ih rest).mpr hr, rfl⟩

theorem allBools_nodup (n : Nat) : (allBools n).Nodup := by
  induction n with
  | zero => simp [allBools]
  | succ n ih =>
    refine List.Nodup.append
      (ih.map (fun a b h => by injection h))
      (ih.map (fun a b h => by injection h)) ?_
    intro x hx1 hx2
    obtain ⟨a, _, ha⟩ := List.mem_map.mp hx1
    obtain ⟨b, _, hb⟩ := List.mem_map.mp hx2
    rw [← ha] at hb
    injection hb with h1 _
    exact Bool.false_ne_true h1

theorem mem_gridPositions (env : RoomEnv) (p : Loc) :
    p ∈ gridPositions env ↔ inBoundsP env p := by
  constructor
  · intro h
    unfold gridPositions at h
    rw [List.mem_flatMap] at h
    obtain ⟨y, hy, hmm⟩ := h
    rw [List.mem_map] at hmm
    obtain ⟨x, hx, he⟩ := hmm
    rw [List.mem_range] at hy hx
    subst he
    refine ⟨Int.natCast_nonneg x, ?_, Int.natCast_nonneg y, ?_⟩
    · show (x : Int) < (env.width : Int)
      exact_mod_cast hx
    · show (y : Int) < (env.height : Int)
      exact_mod_cast hy
  · intro h
    obtain ⟨h1, h2, h3, h4⟩ := h
    unfold gridPositions
    rw [List.mem_flatMap]
    refine ⟨p.2.toNat, ?_, ?_⟩
    · rw [List.mem_range]; omega
    · rw [List.mem_map]
      refine ⟨p.1.toNat, ?_, ?_⟩
      · rw [List.mem_range]; omega
      · rw [Int.toNat_of_nonneg h1, Int.toNat_of_nonneg h3]

theorem gridPositions_nodup (env : RoomEnv) : (gridPositions env).Nodup := by
  show List.Pairwise (fun a b => a ≠ b) (gridPositions env)
  unfold gridPositions
  rw [List.pairwise_flatMap]
  constructor
  · intro y _
    rw [List.pairwise_map]
    refine List.Pairwise.imp ?_ (List.nodup_range env.width)
    intro a b h he
    injection he with he1 _
    exact h (by exact_mod_cast he1)
  · refine List.Pairwise.imp ?_ (List.nodup_range env.height)
    intro y1 y2 h q hq r hr
    obtain ⟨x1, _, he1⟩ := List.mem_map.mp hq
    obtain ⟨x2, _, he2⟩ := List.mem_map.mp hr
    rw [← he1, ← he2]
    intro he
    injection he with _ hee
    exact h (by exact_mod_cast hee)

theorem dkeys_zip (locs : List Loc) (bs : List Bool) (hlen : bs.length = locs.length) :
    dkeys (locs.zip bs) = locs :=
  List.map_fst_zip locs bs (le_of_eq hlen.symm)

theorem dlookup_zip_eq_none (locs : List Loc) (bs : List Bool) (k : Loc)
    (h : k ∉ locs) (hlen : bs.length = locs.length) :
    dlookup (locs.zip bs) k = none :=
  dlookup_eq_none _ _ (by rw [dkeys_zip locs bs hlen]; exact h)

theorem zip_lookup_inj (locs : List Loc) : ∀ bs1 bs2 : List Bool,
    locs.Nodup → bs1.length = locs.length → bs2.length = locs.length →
    (∀ k, dlookup (locs.zip bs1) k = dlookup (locs.zip bs2) k) → bs1 = bs2 := by
  induction locs with
  | nil =>
    intro bs1 bs2 _ h1 h2 _
    rw [List.length_nil] at h1 h2
    rw [List.length_eq_zero.mp h1, List.length_eq_zero.mp h2]
  | cons l ls ih =>
    intro bs1 bs2 hnd h1 h2 hl
    cases bs1 with
    | nil => simp at h1
    | cons b1 t1 =>
      cases bs2 with
      | nil => simp at h2
      | cons b2 t2 =>
        have hz1 : (l :: ls).zip (b1 :: t1) = (l, b1) :: ls.zip t1 := rfl
        have hz2 : (l :: ls).zip (b2 :: t2) = (l, b2) :: ls.zip t2 := rfl
        have hnd' := List.nodup_cons.mp hnd
        have hlen1 : t1.length = ls.length := by simpa using h1
        have hlen2 : t2.length = ls.length := by simpa using h2
        have hhead : b1 = b2 := by
          have hk := hl l
          rw [hz1, hz2] at hk
          simpa [dlookup] using hk
        have htail : t1 = t2 := by
          refine ih t1 t2 hnd'.2 hlen1 hlen2 (fun k => ?_)
          have hk := hl k
          rw [hz1, hz2] at hk
          by_cases hkl : l = k
          · subst hkl
            rw [dlookup_zip_eq_none ls t1 l hnd'.1 hlen1,
              dlookup_zip_eq_none ls t2 l hnd'.1 hlen2]
          · simpa [dlookup, hkl] using hk
        rw [hhead, htail]

theorem dlookup_of_mem_nodup (l : List (Loc × Bool)) (kv : Loc × Bool)
    (hnd : (dkeys l).Nodup) (h : kv ∈ l) : dlookup l kv.1 = some kv.2 := by
  induction l with
  | nil => cases h
  | cons hd rest ih =>
    have hc : dkeys (hd :: rest) = hd.1 :: dkeys rest := rfl
    rw [hc] at hnd
    have hnd' := List.nodup_cons.mp hnd
    rcases List.mem_cons.mp h with he | hm
    · subst he; simp [dlookup]
    · have hne : hd.1 ≠ kv.1 := by
        intro he
        exact hnd'.1 (he ▸ List.mem_map_of_mem Prod.fst hm)
      rw [dlookup, if_neg hne]
      exact ih hnd'.2 hm

theorem mem_of_dlookup (l : List (Loc × Bool)) (k : Loc) (v : Bool)
    (h : dlookup l k = some v) : (k, v) ∈ l := by
  induction l with
  | nil => cases h
  | cons hd rest ih =>
    rw [dlookup] at h
    by_cases he : hd.1 = k
    · rw [if_pos he] at h
      injection h with hv
      have : ((k, v) : Loc × Bool) = hd := by rw [← he, ← hv]
      rw [this]
      exact List.mem_cons_self _ _
    · rw [if_neg he] at h
      exact List.mem_cons_of_mem _ (ih h)

theorem rule_iff (l : List (Loc × Bool)) (p : Loc) (hnd : (dkeys l).Nodup) :
    ¬ dlookup l p = some true ↔ ∀ kv ∈ l, ¬(kv.1 = p ∧ kv.2 = true) := by
  constructor
  · rintro h kv hkv ⟨hk, hv⟩
    apply h
    have := dlookup_of_mem_nodup l kv hnd hkv
    rw [hk, hv] at this
    exact this
  · intro h hc
    exact h (p, true) (mem_of_dlookup l p true hc) ⟨rfl, rfl⟩

theorem mem_enumRaw (env : RoomEnv) (s : RoomState) :
    s ∈ enumRaw env ↔ ∃ bs, bs.length = num_vases env ∧
      s.vase_states = mkLayout env bs ∧ s.agent_pos ∈ gridPositions env ∧
      ¬ dlookup (mkLayout env bs) s.agent_pos = some true := by
  unfold enumRaw
  rw [List.mem_flatMap]
  constructor
  · rintro ⟨bs, hbs, hs⟩
    obtain ⟨p, hp, he⟩ := List.mem_map.mp hs
    obtain ⟨hpg, hcond⟩ := List.mem_filter.mp hp
    have hap : s.agent_pos = p := by rw [← he]
    have hav : s.vase_states = mkLayout env bs := by rw [← he]
    refine ⟨bs, (mem_allBools _ _).mp hbs, hav, hap ▸ hpg, ?_⟩
    rw [hap]
    simpa using hcond
  · rintro ⟨bs, hlen, hv, hg, hr⟩
    refine ⟨bs, (mem_allBools _ _).mpr hlen, ?_⟩
    rw [List.mem_map]
    refine ⟨s.agent_pos, List.mem_filter.mpr ⟨hg, by simpa using hr⟩, ?_⟩
    rw [← hv]

theorem stateEq_canonical (env : RoomEnv) (bs1 bs2 : List Bool) (p1 p2 : Loc)
    (hnd : env.vase_locations.Nodup) (h1 : bs1.length = num_vases env)
    (h2 : bs2.length = num_vases env) :
    stateEq (RoomState.mk p1 (mkLayout env bs1))
        (RoomState.mk p2 (mkLayout env bs2)) = true ↔ p1 = p2 ∧ bs1 = bs2 := by
  rw [stateEq_iff]
  constructor
  · rintro ⟨hp, hl⟩
    exact ⟨hp, zip_lookup_inj env.vase_locations bs1 bs2 hnd h1 h2 hl⟩
  · rintro ⟨hp, hb⟩
    subst hp
    subst hb
    exact ⟨rfl, fun k => rfl⟩

theorem enumRaw_pairwise (env : RoomEnv) (hnd : env.vase_locations.Nodup) :
    (enumRaw env).Pairwise (fun s t => stateEq s t = false) := by
  unfold enumRaw
  rw [List.pairwise_flatMap]
  constructor
  · intro bs hbs
    rw [List.pairwise_map]
    have hlen := (mem_allBools _ _).mp hbs
    refine List.Pairwise.imp ?_ (((gridPositions_nodup env).filter _))
    intro p q hpq
    cases h : stateEq (RoomState.mk p (mkLayout env bs))
        (RoomState.mk q (mkLayout env bs)) with
    | false => rfl
    | true =>
      exact absurd ((stateEq_canonical env bs bs p q hnd hlen hlen).mp h).1 hpq
  · refine List.Pairwise.imp_of_mem ?_ (allBools_nodup (num_vases env))
    intro bs1 bs2 hm1 hm2 hne x hx y hy
    obtain ⟨p1, _, he1⟩ := List.mem_map.mp hx
    obtain ⟨p2, _, he2⟩ := List.mem_map.mp hy
    rw [← he1, ← he2]
    cases h : stateEq (RoomState.mk p1 (mkLayout env bs1))
        (RoomState.mk p2 (mkLayout env bs2)) with
    | false => rfl
    | true =>
      exact absurd ((stateEq_canonical env bs1 bs2 p1 p2 hnd
        ((mem_allBools _ _).mp hm1) ((mem_allBools _ _).mp hm2)).mp h).2 hne

theorem countP_eq_one_of_mem (l : List RoomState) (x : RoomState)
    (hp : l.Pairwise (fun s t => stateEq s t = false)) (hx : x ∈ l) :
    l.countP (fun t => stateEq t x) = 1 := by
  induction l with
  | nil => cases hx
  | cons hd rest ih =>
    rw [List.pairwise_cons] at hp
    rcases List.mem_cons.mp hx with he | hm
    · subst he
      have hz : rest.countP (fun t => stateEq t x) = 0 := by
        rw [List.countP_eq_zero]
        intro t ht hc
        have hxt := hp.1 t ht
        have hth := stateEq_symm t x hc
        rw [hxt] at hth
        exact Bool.false_ne_true hth
      rw [List.countP_cons, hz, stateEq_refl]
      rfl
    · have hne : stateEq hd x = false := hp.1 x hm
      rw [List.countP_cons, ih hp.2 hm, hne]
      rfl

theorem foldl_addState (l : List RoomState) :
    ∀ acc, (∀ x ∈ acc, ∀ y ∈ l, stateEq x y = false) →
      l.Pairwise (fun s t => stateEq s t = false) →
      l.foldl addState acc = acc ++ l := by
  induction l with
  | nil => intro acc _ _; simp
  | cons s rest ih =>
    intro acc hcross hp
    rw [List.foldl_cons]
    have hno : ¬ (acc.any (fun t => stateEq t s) = true) := by
      rw [List.any_eq_true]
      rintro ⟨t, ht, hst⟩
      rw [hcross t ht s (List.mem_cons_self s rest)] at hst
      exact Bool.false_ne_true hst
    have hadd : addState acc s = acc ++ [s] := by
      unfold addState
      rw [if_neg hno]
    rw [hadd]
    rw [List.pairwise_cons] at hp
    rw [ih (acc ++ [s]) ?_ hp.2]
    · simp
    · intro x hx y hy
      rcases List.mem_append.mp hx with hxa | hxs
      · exact hcross x hxa y (List.mem_cons_of_mem _ hy)
      · have hxe : x = s := by simpa using hxs
        subst hxe
        exact hp.1 y hy

theorem enumerate_eq_raw (env : RoomEnv) (hnd : env.vase_locations.Nodup) :
    enumerate_states env = enumRaw env := by
  unfold enumerate_states
  rw [foldl_addState (enumRaw env) [] (fun x hx => absurd hx (List.not_mem_nil x))
    (enumRaw_pairwise env hnd)]
  rfl

theorem spec_rule_iff_lookup (env : RoomEnv) (bs : List Bool) (p : Loc)
    (hnd : env.vase_locations.Nodup) (hlen : bs.length = num_vases env) :
    (¬ dlookup (mkLayout env bs) p = some true) ↔
      ∀ kv ∈ env.vase_locations.zip bs, ¬(kv.1 = p ∧ kv.2 = true) := by
  have hkeys : dkeys (mkLayout env bs) = env.vase_locations := dkeys_zip _ _ hlen
  exact rule_iff (mkLayout env bs) p (hkeys ▸ hnd)

theorem enumRaw_length_eq_specCount (env : RoomEnv)
    (hnd : env.vase_locations.Nodup) :
    (enumRaw env).length = specCountValidPairs env := by
  unfold enumRaw specCountValidPairs
  have haux : ∀ L : List (List Bool), (∀ bs ∈ L, bs.length = num_vases env) →
      (L.flatMap (fun bs =>
          ((gridPositions env).filter
              (fun p => !(dlookup (mkLayout env bs) p == some true))).map
            (fun p => RoomState.mk p (mkLayout env bs)))).length
        = (L.flatMap (fun bs =>
            (gridPositions env).map (fun p => (bs, p)))).countP
              (fun bp => decide (specValidPair env bp.1 bp.2)) := by
    intro L
    induction L with
    | nil => intro _; rfl
    | cons bs rest ih =>
      intro hall
      rw [List.flatMap_cons, List.flatMap_cons, List.length_append,
        List.countP_append, ih (fun b hb => hall b (List.mem_cons_of_mem _ hb))]
      have hlen : bs.length = num_vases env := hall bs (List.mem_cons_self _ _)
      congr 1
      rw [List.length_map, List.countP_map, ← List.countP_eq_length_filter]
      refine List.countP_congr ?_
      intro p hp
      have hb : inBoundsP env p := (mem_gridPositions env p).mp hp
      constructor
      · intro hcond
        have hrule : ¬ dlookup (mkLayout env bs) p = some true := by
          simpa using hcond
        simp only [Function.comp, decide_eq_true_eq]
        exact ⟨hlen, hb, (spec_rule_iff_lookup env bs p hnd hlen).mp hrule⟩
      · intro hs
        simp only [Function.comp, decide_eq_true_eq] at hs
        have hrule := (spec_rule_iff_lookup env bs p hnd hlen).mpr hs.2.2
        simpa using hrule
  exact haux (allBools (num_vases env)) (fun bs hb => (mem_allBools _ _).mp hb)

/-! ### Claim theorem: exact enumeration -/

/-- C1: `enumerate_states` produces exactly the duplicate-free set of
valid states — every valid `(vase-layout, agent-position)` pair yields
exactly one enumerated state, every enumerated state comes from a valid
pair, and `nS` equals the brute-force count of valid pairs. -/
theorem enumeration_exact (env : RoomEnv) (hw : 1 ≤ env.width)
    (hh : 1 ≤ env.height) (hnd : env.vase_locations.Nodup)
    (hin : ∀ v ∈ env.vase_locations, inBoundsP env v) :
    ((enumerate_states env).Pairwise (fun s t => stateEq s t = false)) ∧
    (∀ bs p, specValidPair env bs p →
      (enumerate_states env).countP
        (fun t => stateEq t (RoomState.mk p (mkLayout env bs))) = 1) ∧
    (∀ s ∈ enumerate_states env, ∃ bs p, specValidPair env bs p ∧
      s = RoomState.mk p (mkLayout env bs)) ∧
    nS env = specCountValidPairs env := by
  have hpair := enumRaw_pairwise env hnd
  rw [← enumerate_eq_raw env hnd] at hpair
  refine ⟨hpair, ?_, ?_, ?_⟩
  · rintro bs p ⟨hlen, hb, hrule⟩
    refine countP_eq_one_of_mem _ _ hpair ?_
    rw [enumerate_eq_raw env hnd, mem_enumRaw]
    exact ⟨bs, hlen, rfl, (mem_gridPositions env p).mpr hb,
      (spec_rule_iff_lookup env bs p hnd hlen).mpr hrule⟩
  · intro s hs
    rw [enumerate_eq_raw env hnd] at hs
    obtain ⟨bs, hlen, hv, hg, hr⟩ := (mem_enumRaw env s).mp hs
    refine ⟨bs, s.agent_pos,
      ⟨hlen, (mem_gridPositions env s.agent_pos).mp hg,
        (spec_rule_iff_lookup env bs s.agent_pos hnd hlen).mp hr⟩, ?_⟩
    rw [← hv]
  · unfold nS
    rw [enumerate_eq_raw env hnd]
    exact enumRaw_length_eq_specCount env hnd

/-- C1 witness: 1×2 grid with one vase at `(0, 1)` — the intact layout
admits one agent position, the broken layout two, so `nS` is `3` and the
valid pair `([true], (0, 0))` is enumerated exactly once. -/
theorem enumeration_exact_witness :
    nS (RoomEnv.mk 1 2 [((0 : Int), (1 : Int))] [] []) =
      specCountValidPairs (RoomEnv.mk 1 2 [((0 : Int), (1 : Int))] [] []) ∧
    (enumerate_states (RoomEnv.mk 1 2 [((0 : Int), (1 : Int))] [] [])).countP
      (fun t => stateEq t (RoomState.mk ((0 : Int), (0 : Int))
        (mkLayout (RoomEnv.mk 1 2 [((0 : Int), (1 : Int))] [] []) [true]))) = 1 := by
  have h := enumeration_exact (RoomEnv.mk 1 2 [((0 : Int), (1 : Int))] [] [])
    (by decide) (by decide) (by decide) (by decide)
  exact ⟨h.2.2.2, h.2.1 [true] ((0 : Int), (0 : Int)) (by decide)⟩

theorem dupdate_zip_exists (locs : List Loc) : ∀ (bs : List Bool) (p : Loc) (v : Bool),
    ∃ cs : List Bool, cs.length = bs.length ∧
      dupdate (locs.zip bs) p v = locs.zip cs := by
  induction locs with
  | nil =>
    intro bs p v
    exact ⟨bs, rfl, rfl⟩
  | cons l ls ih =>
    intro bs p v
    cases bs with
    | nil => exact ⟨[], rfl, rfl⟩
    | cons b t =>
      obtain ⟨cs, hcl, hcz⟩ := ih t p v
      refine ⟨(if l = p then v else b) :: cs, by simp [hcl], ?_⟩
      have hz : (l :: ls).zip (b :: t) = (l, b) :: ls.zip t := rfl
      rw [hz]
      show (if (l, b).1 = p then ((l, b).1, v) else (l, b)) :: dupdate (ls.zip t) p v =
        (l :: ls).zip ((if l = p then v else b) :: cs)
      rw [hcz]
      by_cases hl : l = p
      · rw [if_pos hl, if_pos hl]
        rfl
      · rw [if_neg hl, if_neg hl]
        rfl

theorem dmem_dkeys (l : List (Loc × Bool)) (k : Loc) :
    dmem l k = true ↔ k ∈ dkeys l := by
  constructor
  · intro h
    exact mem_of_dlookup_isSome l k (by simpa [dmem] using h)
  · intro h
    simpa [dmem] using dlookup_isSome_of_mem l k h

/-! ### Claim theorem: closure under transitions -/

/-- C2: for every enumerated state and every action number `0..4`, the
successor computed by `get_next_state` is equal (by `__eq__`) to a
state present in the enumerated set: the state space is closed under
the transition function. -/
theorem transition_closed (env : RoomEnv) (hnd : env.vase_locations.Nodup) :
    ∀ s ∈ enumerate_states env, ∀ a, a < 5 →
      ∃ t ∈ enumerate_states env, stateEq (get_next_state env s a) t = true := by
  intro s hs a _
  rw [enumerate_eq_raw env hnd] at hs ⊢
  obtain ⟨bs, hlen, hv, hg, _⟩ := (mem_enumRaw env s).mp hs
  refine ⟨get_next_state env s a, ?_, stateEq_refl _⟩
  rw [mem_enumRaw]
  have hb : inBoundsP env (get_next_state env s a).agent_pos := by
    rw [get_next_state_agent_pos]
    by_cases hc : inBoundsP env (move_in_direction_number s.agent_pos a)
    · rw [if_pos hc]; exact hc
    · rw [if_neg hc]; exact (mem_gridPositions env s.agent_pos).mp hg
  cases hm : dmem s.vase_states (get_next_state env s a).agent_pos with
  | false =>
    refine ⟨bs, hlen, ?_, (mem_gridPositions env _).mpr hb, ?_⟩
    · rw [get_next_state_vase_states, hm]
      simpa using hv
    · rw [← hv]
      intro hc
      have : dmem s.vase_states (get_next_state env s a).agent_pos = true := by
        simp [dmem, hc]
      rw [hm] at this
      exact Bool.false_ne_true this
  | true =>
    obtain ⟨cs, hcl, hcz⟩ :=
      dupdate_zip_exists env.vase_locations bs (get_next_state env s a).agent_pos false
    have hveq : (get_next_state env s a).vase_states = mkLayout env cs := by
      rw [get_next_state_vase_states, hm]
      show dupdate s.vase_states (get_next_state env s a).agent_pos false = mkLayout env cs
      rw [hv]
      exact hcz
    refine ⟨cs, by rw [hcl]; exact hlen, hveq, (mem_gridPositions env _).mpr hb, ?_⟩
    have hlook : dlookup (mkLayout env cs) (get_next_state env s a).agent_pos = some false := by
      rw [← hveq, get_next_state_vase_states, hm]
      show dlookup (dupdate s.vase_states (get_next_state env s a).agent_pos false) _ = some false
      exact dlookup_dupdate_self _ _ _ hm
    rw [hlook]
    simp

/-- C2 witness: in the 2×1 grid with an intact vase at `(1, 0)`, the
EAST successor of the enumerated start state is itself enumerated. -/
theorem transition_closed_witness :
    ∃ t ∈ enumerate_states (RoomEnv.mk 2 1 [((1 : Int), (0 : Int))] [] []),
      stateEq (get_next_state (RoomEnv.mk 2 1 [((1 : Int), (0 : Int))] [] [])
        (RoomState.mk ((0 : Int), (0 : Int)) [(((1 : Int), (0 : Int)), true)]) 2) t = true :=
  transition_closed (RoomEnv.mk 2 1 [((1 : Int), (0 : Int))] [] []) (by decide)
    (RoomState.mk ((0 : Int), (0 : Int)) [(((1 : Int), (0 : Int)), true)])
    (by decide) 2 (by decide)

/-! ### Claim theorem: index tables are inverse bijections -/

theorem findIdxAux_of_get (l : List RoomState) :
    ∀ (i : Nat) (s : RoomState),
      l.Pairwise (fun a b => stateEq a b = false) → l.get? i = some s →
        findIdxAux s l = some i := by
  induction l with
  | nil => intro i s _ hg; simp at hg
  | cons t rest ih =>
    intro i s hp hg
    cases i with
    | zero =>
      have ht : t = s := by simpa using hg
      subst ht
      rw [findIdxAux, if_pos (stateEq_refl t)]
    | succ i =>
      have hg' : rest.get? i = some s := by simpa using hg
      have hmem : s ∈ rest := List.get?_mem hg'
      rw [List.pairwise_cons] at hp
      have hne : stateEq t s = false := hp.1 s hmem
      rw [findIdxAux, if_neg (by rw [hne]; exact Bool.false_ne_true),
        ih i s hp.2 hg']
      rfl

/-- C3: the index tables are mutually inverse bijections over the
enumerated states — every enumerated state has an index below `nS`
that maps back to it, and every index below `nS` yields a state that
maps back to the same index; the assigned indices are exactly
`{0, …, nS - 1}`. -/
theorem index_tables_bijective (env : RoomEnv) (hnd : env.vase_locations.Nodup) :
    (∀ s ∈ enumerate_states env, ∃ i, i < nS env ∧
      get_num_from_state env s = some i ∧ get_state_from_num env i = some s) ∧
    ∀ i, i < nS env → ∃ s, get_state_from_num env i = some s ∧
      get_num_from_state env s = some i := by
  have hpair := enumRaw_pairwise env hnd
  rw [← enumerate_eq_raw env hnd] at hpair
  constructor
  · intro s hs
    obtain ⟨i, hg⟩ := List.get?_of_mem hs
    have hi : i < nS env := by
      by_contra hni
      rw [List.get?_eq_none.mpr (Nat.le_of_not_lt hni)] at hg
      cases hg
    exact ⟨i, hi, findIdxAux_of_get _ i s hpair hg, hg⟩
  · intro i hi
    have hg : (enumerate_states env).get? i =
        some ((enumerate_states env).get ⟨i, hi⟩) := List.get?_eq_get hi
    exact ⟨_, hg, findIdxAux_of_get _ i _ hpair hg⟩

/-- C3 witness: in the 1×1 grid without vases the unique state receives
index `0`, and the two tables invert each other on it. -/
theorem index_tables_bijective_witness :
    get_num_from_state (RoomEnv.mk 1 1 [] [] [])
        (RoomState.mk ((0 : Int), (0 : Int)) []) = some 0 ∧
    get_state_from_num (RoomEnv.mk 1 1 [] [] []) 0 =
      some (RoomState.mk ((0 : Int), (0 : Int)) []) := by
  have h := (index_tables_bijective (RoomEnv.mk 1 1 [] [] []) (by decide)).1
    (RoomState.mk ((0 : Int), (0 : Int)) []) (by decide)
  obtain ⟨i, hi, h1, h2⟩ := h
  have hz : i = 0 := by
    have : nS (RoomEnv.mk 1 1 [] [] []) = 1 := by decide
    omega
  subst hz
  exact ⟨h1, h2⟩

end Room
